import Mathlib

/-!
Shallow embedding of the code-chunking and hybrid-retrieval engine of the
claude-context-local repository, together with proofs about it.

Conventions used throughout:
* JavaScript strings are modelled as `List Char`; `String.prototype.length`,
  `slice`, `split('\n')`, `trim` and friends are modelled character-wise.
* JavaScript numbers holding line numbers are modelled as `Int` (they are
  added to and subtracted from, and floored with `Math.max(1, _)`).
* Fallible operations are modelled with `Except`/`Option`; external
  collaborators (file system, database rows, embedding provider) are passed
  in as explicit oracle values.
-/

namespace ContextLocal

/-! ## Character-list utilities (JS string primitives) -/

/-- The whitespace characters relevant to `String.prototype.trim` for the
source texts considered here (space, tab, newline, carriage return). -/

def isJsWhitespace (c : Char) : Bool :=
  c = ' ' || c = '\t' || c = '\n' || c = '\r'

/-- JS `s.trim()`: drop whitespace from both ends. -/

def trimChars (s : List Char) : List Char :=
  ((s.dropWhile isJsWhitespace).reverse.dropWhile isJsWhitespace).reverse

/-- JS `s.split('\n')` on a character list; always returns at least one
(possibly empty) segment. -/

def splitNL : List Char → List (List Char)
  | [] => [[]]
  | c :: rest =>
    if c = '\n' then [] :: splitNL rest
    else
      match splitNL rest with
      | [] => [[c]]
      | l :: ls => (c :: l) :: ls

/-- JS `s.slice(-n)` for `n > 0`: the last `min n s.length` characters. -/

def sliceLast (n : Nat) (s : List Char) : List Char :=
  s.drop (s.length - n)

/-- JS `s.slice(a, b)`. -/

def sliceChars (s : List Char) (a b : Nat) : List Char :=
  (s.drop a).take (b - a)

/-- The number of `'\n'` characters in a character list. -/

def countNL (s : List Char) : Nat :=
  (s.filter (· = '\n')).length

/-! ## Data model: chunks

`CodeChunk` in the source is `{ content, metadata: { startLine, endLine,
language, filePath, isDefinition } }`; the metadata record is flattened here.
`isDefinition` is optional in the source (sub-chunks and the whole-file
fallback chunk omit it), hence `Option Bool`. -/

structure CodeChunk where
  content : List Char
  startLine : Int
  endLine : Int
  language : String
  filePath : Option String
  isDefinition : Option Bool
deriving DecidableEq

/-! ## AstCodeSplitter.splitLargeChunk

Faithful translation of the line-accumulating loop: `lines` is
`chunk.content.split('\n')`, the running buffer is closed whenever appending
the next line (with its newline, except for the last line) would exceed
`chunkSize` and the buffer is non-empty. -/

/-- `i === lines.length - 1 ? line : line + '\n'`. -/

def lineWithNL (isLast : Bool) (l : List Char) : List Char :=
  if isLast then l else l ++ ['\n']

/-- The loop body of `splitLargeChunk`.  `base` is the parent chunk's
`startLine`, `i` the current line index, `cur`/`curStart`/`curCount` the
running buffer, its start line and its line count. -/

def slcLoop (chunkSize : Nat) (base : Int) (language : String)
    (filePath : Option String) :
    List (List Char) → Nat → List Char → Int → Nat → List CodeChunk
  | [], _, cur, curStart, curCount =>
    if (trimChars cur).length > 0 then
      [⟨trimChars cur, curStart, curStart + curCount - 1, language, filePath, none⟩]
    else []
  | l :: rest, i, cur, curStart, curCount =>
    let lw := lineWithNL rest.isEmpty l
    if cur.length + lw.length > chunkSize ∧ cur.length > 0 then
      ⟨trimChars cur, curStart, curStart + curCount - 1, language, filePath, none⟩ ::
        slcLoop chunkSize base language filePath rest (i + 1) lw (base + i) 1
    else
      slcLoop chunkSize base language filePath rest (i + 1) (cur ++ lw) curStart (curCount + 1)

/-- `AstCodeSplitter.splitLargeChunk`: split an oversized chunk on line
boundaries. -/

def splitLargeChunk (chunkSize : Nat) (chunk : CodeChunk) : List CodeChunk :=
  slcLoop chunkSize chunk.startLine chunk.language chunk.filePath
    (splitNL chunk.content) 0 [] chunk.startLine 0

/-! ## AstCodeSplitter.addOverlap and getLineCount -/

/-- `AstCodeSplitter.getLineCount`: `text.split('\n').length`.  Note that this
is the number of newline characters plus one. -/

def getLineCount (text : List Char) : Nat :=
  (splitNL text).length

/-- The per-chunk overlap update: prepend the last `chunkOverlap` characters
of the previous chunk's content joined by a newline, and move `startLine` up
by `getLineCount` of the overlap text, floored at 1. -/

def applyOverlap (chunkOverlap : Nat) (prev cur : CodeChunk) : CodeChunk :=
  let overlapText := sliceLast chunkOverlap prev.content
  { cur with
    content := overlapText ++ '\n' :: cur.content
    startLine := max 1 (cur.startLine - (getLineCount overlapText : Int)) }

/-- The `i > 0` part of the `addOverlap` loop: each chunk is overlapped with
its immediate predecessor in the ORIGINAL sequence. -/

def overlapTail (chunkOverlap : Nat) : CodeChunk → List CodeChunk → List CodeChunk
  | _, [] => []
  | prev, c :: rest => applyOverlap chunkOverlap prev c :: overlapTail chunkOverlap c rest

/-- `AstCodeSplitter.addOverlap`: no-op for at most one chunk or zero
overlap; otherwise every chunk but the first receives the overlap prefix. -/

def addOverlap (chunkOverlap : Nat) (chunks : List CodeChunk) : List CodeChunk :=
  if chunks.length ≤ 1 ∨ chunkOverlap = 0 then chunks
  else
    match chunks with
    | [] => []
    | c :: rest => c :: overlapTail chunkOverlap c rest

/-! ## AstCodeSplitter.refineChunks -/

/-- The splitting stage of `refineChunks`: chunks within `chunkSize` pass
through, oversized ones are split. -/

def splitStage (chunkSize : Nat) (chunks : List CodeChunk) : List CodeChunk :=
  chunks.flatMap fun c =>
    if c.content.length ≤ chunkSize then [c] else splitLargeChunk chunkSize c

/-- `AstCodeSplitter.refineChunks`: oversized-chunk splitting followed by the
single global overlap pass. -/

def refineChunks (chunkSize chunkOverlap : Nat) (chunks : List CodeChunk) :
    List CodeChunk :=
  addOverlap chunkOverlap (splitStage chunkSize chunks)

/-! ## Concrete chunk sequences used in counterexamples and witnesses -/

/-- A two-character chunk, within any `chunkSize ≥ 2`. -/

def overlapDemoA : CodeChunk := ⟨['a', 'b'], 1, 1, "javascript", none, none⟩

/-- A second two-character chunk recorded as starting on line 5. -/

def overlapDemoB : CodeChunk := ⟨['c', 'd'], 5, 5, "javascript", none, none⟩

/-! ## PostgresVectorDatabase.parseFilterExpression

The source applies a chain of global string replacements (field aliases,
`==` to `=`, ` in [..]` to ` IN (..)`), then strips every `;`, then falls
back to `1=1` for an empty result.  JS `String.prototype.replace` with a
global literal pattern scans left to right and continues after each
replacement; the ` in \[([^\]]+)\]` regex matches the literal ` in [`, one
or more non-`]` characters (maximal munch up to the first `]`), and the
closing `]`. -/

/-- Global literal replacement, JS `s.replace(/pat/g, rep)` for a literal
pattern.  The `pat ≠ []` guard only serves termination; every pattern used
below is non-empty. -/

def replaceAll (pat rep : List Char) : List Char → List Char
  | [] => []
  | c :: rest =>
    if pat ≠ [] ∧ pat.isPrefixOf (c :: rest) then
      rep ++ replaceAll pat rep ((c :: rest).drop pat.length)
    else c :: replaceAll pat rep rest
termination_by s => s.length
decreasing_by
  · rename_i h
    have hpat : 1 ≤ pat.length := by
      cases pat
      · exact absurd rfl h.1
      · simp
    simp only [List.length_drop, List.length_cons]
    omega
  · simp

/-- Whether `pat` occurs as a contiguous substring of the argument. -/

def hasSubstr (pat : List Char) : List Char → Bool
  | [] => pat.isEmpty
  | c :: rest => pat.isPrefixOf (c :: rest) || hasSubstr pat rest

/-- The literal part of the ` in \[([^\]]+)\]` pattern. -/

def inClausePat : List Char := [' ', 'i', 'n', ' ', '[']

/-- The literal part of the ` IN (${p1})` replacement. -/

def inClauseRep : List Char := [' ', 'I', 'N', ' ', '(']

/-- Global rewrite of ` in [v1, v2]` to ` IN (v1, v2)`, following the JS
regex semantics: at each position, try to match ` in [`, then one or more
non-`]` characters, then `]`; on failure advance one character, on success
continue after the match. -/

def rewriteInClause : List Char → List Char
  | [] => []
  | c :: rest =>
    if inClausePat.isPrefixOf (c :: rest) then
      let after := (c :: rest).drop 5
      let inner := after.takeWhile (· ≠ ']')
      if inner ≠ [] ∧ (after.drop inner.length).head? = some ']' then
        inClauseRep ++ inner ++ ')' :: rewriteInClause (after.drop (inner.length + 1))
      else c :: rewriteInClause rest
    else c :: rewriteInClause rest
termination_by s => s.length
decreasing_by
  · simp only [List.length_drop, List.length_cons]
    omega
  · simp
  · simp

/-- `PostgresVectorDatabase.parseFilterExpression`: alias and operator
rewrites, statement-separator stripping, `1=1` fallback. -/

def parseFilterExpression (filter : List Char) : List Char :=
  let parsed := rewriteInClause
    (replaceAll " == ".toList " = ".toList
      (replaceAll "fileExtension".toList "file_extension".toList
        (replaceAll "endLine".toList "end_line".toList
          (replaceAll "startLine".toList "start_line".toList
            (replaceAll "relativePath".toList "relative_path".toList filter)))))
  let stripped := parsed.filter (· ≠ ';')
  if stripped.isEmpty then "1=1".toList else stripped

/-! ## PostgresVectorDatabase.hybridSearch

The SQL is embedded relationally.  A table row carries, as oracle values,
the results of the external Postgres operators for the fixed query: the
cosine distance `vector <=> $1` (`vectorDistance`), the lexical rank
`ts_rank_cd(...)` (`ftsScore`), the full-text match `@@` (`ftsMatch`), and
the translated filter predicate (`passesFilter`).  `id` is the table's
PRIMARY KEY, so the `LEFT JOIN ... ON t.id = v.id` joins are modelled by
association-list lookup.  SQL `ORDER BY` leaves tie order unspecified; the
model determinises it with a stable sort, which realises one of the allowed
orders.  `topK` is the already-resolved `options?.limit || 10`. -/

structure DbRow where
  id : String
  content : String
  isDefinition : Bool
  vectorDistance : ℚ
  ftsScore : ℚ
  ftsMatch : Bool
  passesFilter : Bool
deriving DecidableEq

/-- The `vector_results` CTE: top `topK` filtered rows by ascending cosine
distance, each scored `1 - distance`. -/

def vectorCandidates (table : List DbRow) (topK : Nat) : List (String × ℚ) :=
  (((table.filter (·.passesFilter)).mergeSort
      (fun a b => decide (a.vectorDistance ≤ b.vectorDistance))).take topK).map
    (fun r => (r.id, 1 - r.vectorDistance))

/-- The `fts_results` CTE: top `topK` filtered AND matching rows by
descending lexical rank. -/

def ftsCandidates (table : List DbRow) (topK : Nat) : List (String × ℚ) :=
  (((table.filter (fun r => r.passesFilter && r.ftsMatch)).mergeSort
      (fun a b => decide (b.ftsScore ≤ a.ftsScore))).take topK).map
    (fun r => (r.id, r.ftsScore))

/-- Join by id against a candidate score set. -/

def lookupScore (l : List (String × ℚ)) (id : String) : Option ℚ :=
  (l.find? (fun p => decide (p.1 = id))).map (·.2)

/-- `CASE WHEN t.is_definition THEN 0.1 ELSE 0 END`. -/

def definitionBonus (r : DbRow) : ℚ :=
  if r.isDefinition then 1 / 10 else 0

/-- `COALESCE(v.vector_score, 0) * 0.7 + COALESCE(f.fts_score, 0) * 0.3 +
definition bonus`. -/

def hybridFinalScore (v f : List (String × ℚ)) (r : DbRow) : ℚ :=
  7 / 10 * ((lookupScore v r.id).getD 0) + 3 / 10 * ((lookupScore f r.id).getD 0)
    + definitionBonus r

/-- `PostgresVectorDatabase.hybridSearch` after the request has been parsed:
outer-join fusion when a lexical query text is supplied, inner-join
restriction to the vector candidates when it is empty. -/

def hybridSearch (table : List DbRow) (topK : Nat) (queryText : String) :
    List (DbRow × ℚ) :=
  let v := vectorCandidates table topK
  if queryText ≠ "" then
    let f := ftsCandidates table topK
    let cands := table.filter
      (fun t => (lookupScore v t.id).isSome || (lookupScore f t.id).isSome)
    ((cands.map (fun t => (t, hybridFinalScore v f t))).mergeSort
        (fun a b => decide (b.2 ≤ a.2))).take topK
  else
    let cands := table.filter (fun t => (lookupScore v t.id).isSome)
    ((cands.map (fun t => (t, (lookupScore v t.id).getD 0 + definitionBonus t))).mergeSort
        (fun a b => decide (b.2 ≤ a.2))).take topK

/-- A concrete table row for witnesses: a filtered, matching definition. -/

def demoRow : DbRow := ⟨"r1", "function demo", true, 1 / 4, 1 / 2, true, true⟩

/-! ## ToolHandlers (packages/mcp/src/handlers.ts)

The handlers mutate a `SnapshotManager` and call `Context` collaborators.
`snapshot.ts` itself is not part of the provided sources, only its call
sites; its state and operations below are therefore modelled from the
spec's Codebase Index State (§3): one status entry per path with progress,
error message, last attempted percentage and statistics, persisted by
`saveCodebaseSnapshot`.  The `Context` collaborator (core package) is
likewise reduced to the oracle values the handlers consume. -/

inductive CodebaseStatus
  | notFound
  | indexing
  | indexed
  | indexfailed
deriving DecidableEq

/-- Statistics returned by `Context.indexCodebase`. -/

structure IndexStats where
  indexedFiles : Nat
  totalChunks : Nat
  status : Option String
deriving DecidableEq

/-- Modelled from the spec: the per-path entry of the Codebase Index State
registry kept by `SnapshotManager` (snapshot.ts is not among the sources). -/

structure CodebaseEntry where
  status : CodebaseStatus
  indexingPercentage : Option ℚ
  errorMessage : Option String
  lastAttemptedPercentage : Option ℚ
  indexedFiles : Option Nat
  totalChunks : Option Nat
  indexStatus : Option String
deriving DecidableEq

/-- Modelled from the spec: exactly one state entry per path. -/

abbrev SnapshotData : Type := List (String × CodebaseEntry)

def lookupEntry (m : SnapshotData) (path : String) : Option CodebaseEntry :=
  (m.find? (fun p => decide (p.1 = path))).map (·.2)

def setEntry (m : SnapshotData) (path : String) (e : CodebaseEntry) : SnapshotData :=
  m.filter (fun q => decide (q.1 ≠ path)) ++ [(path, e)]

/-- Modelled from the spec: `SnapshotManager.getIndexedCodebases`. -/

def getIndexedCodebases (m : SnapshotData) : List String :=
  (m.filter (fun q => decide (q.2.status = CodebaseStatus.indexed))).map (·.1)

/-- Modelled from the spec: `SnapshotManager.getIndexingCodebases`. -/

def getIndexingCodebases (m : SnapshotData) : List String :=
  (m.filter (fun q => decide (q.2.status = CodebaseStatus.indexing))).map (·.1)

/-- Modelled from the spec: `SnapshotManager.getCodebaseStatus`. -/

def getCodebaseStatus (m : SnapshotData) (path : String) : CodebaseStatus :=
  ((lookupEntry m path).map (·.status)).getD CodebaseStatus.notFound

/-- Modelled from the spec: `SnapshotManager.getIndexingProgress`. -/

def getIndexingProgress (m : SnapshotData) (path : String) : Option ℚ :=
  (lookupEntry m path).bind (·.indexingPercentage)

/-- Modelled from the spec: `SnapshotManager.setCodebaseIndexing`. -/

def setCodebaseIndexing (m : SnapshotData) (path : String) (pct : ℚ) : SnapshotData :=
  setEntry m path ⟨CodebaseStatus.indexing, some pct, none, none, none, none, none⟩

/-- Modelled from the spec: `SnapshotManager.setCodebaseIndexFailed`. -/

def setCodebaseIndexFailed (m : SnapshotData) (path : String) (msg : String)
    (lastPct : Option ℚ) : SnapshotData :=
  setEntry m path ⟨CodebaseStatus.indexfailed, none, some msg, lastPct, none, none, none⟩

/-- Modelled from the spec: `SnapshotManager.setCodebaseIndexed`. -/

def setCodebaseIndexed (m : SnapshotData) (path : String) (stats : IndexStats) :
    SnapshotData :=
  setEntry m path ⟨CodebaseStatus.indexed, none, none, none,
    some stats.indexedFiles, some stats.totalChunks, stats.status⟩

/-- Modelled from the spec: `SnapshotManager.removeIndexedCodebase`. -/

def removeIndexedCodebase (m : SnapshotData) (path : String) : SnapshotData :=
  m.filter (fun q => decide (¬ (q.1 = path ∧ q.2.status = CodebaseStatus.indexed)))

/-- The splitter actually wired into a `Context`. -/

inductive SplitterKind
  | ast
  | langchain
deriving DecidableEq

/-- A record of one background indexing task execution. -/

structure BackgroundRun where
  path : String
  requestedSplitter : String
  usedSplitter : SplitterKind
deriving DecidableEq

/-- Observable handler/process state: the snapshot registry, the log of
durably persisted snapshots, cleared collections, configuration added to
the shared `Context`, tracked paths, fire-and-forget job requests and
executed background runs. -/

structure McpState where
  snapshot : SnapshotData
  persistedSnapshots : List SnapshotData
  clearedIndexes : List String
  customExtensions : List String
  customIgnorePatterns : List String
  trackedPaths : List String
  startedJobs : List (String × Bool × String)
  backgroundRuns : List BackgroundRun
deriving DecidableEq

instance {ε α : Type} [DecidableEq ε] [DecidableEq α] :
    DecidableEq (Except ε α) := fun x y =>
  match x, y with
  | Except.error a, Except.error b =>
    if h : a = b then Decidable.isTrue (by rw [h])
    else Decidable.isFalse (by simp [h])
  | Except.error _, Except.ok _ => Decidable.isFalse (by simp)
  | Except.ok _, Except.error _ => Decidable.isFalse (by simp)
  | Except.ok a, Except.ok b =>
    if h : a = b then Decidable.isTrue (by rw [h])
    else Decidable.isFalse (by simp [h])

/-- Oracle values for the external calls made by `handleIndexCodebase`:
`fs.existsSync`, `stat.isDirectory`, `context.hasIndex`, and
`checkCollectionLimit` (which may also throw, hence `Except`). -/

structure IndexEnv where
  pathExists : Bool
  isDirectory : Bool
  hasIndex : Bool
  collectionLimit : Except String Bool
deriving DecidableEq

/-- The `args` object of `handleIndexCodebase`; absent fields are `none`
and defaulted exactly as the destructuring with `||` defaults does. -/

structure IndexArgs where
  path : String
  force : Option Bool
  splitter : Option String
  customExtensions : Option (List String)
  ignorePatterns : Option (List String)
deriving DecidableEq

inductive RespKind
  | invalidSplitter
  | pathNotExists
  | notDirectory
  | alreadyIndexing
  | alreadyIndexed
  | collectionLimit
  | validationError
  | started
deriving DecidableEq

/-- The MCP tool response, reduced to the observable distinctions: which
return site produced it, its `isError` flag, and (for a successful start)
the upper-cased splitter name echoed in the acknowledgement text. -/

structure McpResponse where
  kind : RespKind
  isError : Bool
  ackSplitter : Option String
deriving DecidableEq

def mkErr (k : RespKind) : McpResponse := ⟨k, true, none⟩

/-- JS `String.prototype.toUpperCase` for the ASCII splitter names. -/

def jsToUpperCase (s : String) : String := ⟨s.data.map Char.toUpper⟩

/-- The force-reindex clearing block of `handleIndexCodebase` (runs BEFORE
the collection-limit check): remove the path from the indexed list if
present, and clear its index if the store has one. -/

def forceClearStage (env : IndexEnv) (path : String) (force : Bool)
    (st : McpState) : McpState :=
  if force then
    let stA := if path ∈ getIndexedCodebases st.snapshot then
        { st with snapshot := removeIndexedCodebase st.snapshot path }
      else st
    if env.hasIndex then { stA with clearedIndexes := stA.clearedIndexes ++ [path] }
    else stA
  else st

/-- `ToolHandlers.handleIndexCodebase`, with validation, concurrency guard,
force clearing, the pre-flight collection-limit check, configuration
updates, the transition to `indexing`, the immediate snapshot save and the
fire-and-forget job request, in source order. -/

def handleIndexCodebase (env : IndexEnv) (args : IndexArgs) (st : McpState) :
    McpResponse × McpState :=
  let forceReindex := args.force.getD false
  let splitterType := args.splitter.getD "ast"
  let customFileExtensions := (args.customExtensions).getD []
  let customIgnorePatterns := (args.ignorePatterns).getD []
  if ¬ (splitterType = "ast" ∨ splitterType = "langchain") then
    (mkErr RespKind.invalidSplitter, st)
  else if env.pathExists = false then (mkErr RespKind.pathNotExists, st)
  else if env.isDirectory = false then (mkErr RespKind.notDirectory, st)
  else if args.path ∈ getIndexingCodebases st.snapshot then
    (mkErr RespKind.alreadyIndexing, st)
  else if forceReindex = false ∧ args.path ∈ getIndexedCodebases st.snapshot then
    (mkErr RespKind.alreadyIndexed, st)
  else
    let st1 := forceClearStage env args.path forceReindex st
    match env.collectionLimit with
    | Except.error _ => (mkErr RespKind.validationError, st1)
    | Except.ok false => (mkErr RespKind.collectionLimit, st1)
    | Except.ok true =>
      let st2 := { st1 with customExtensions := st1.customExtensions ++ customFileExtensions }
      let st3 := { st2 with customIgnorePatterns := st2.customIgnorePatterns ++ customIgnorePatterns }
      let st4 := { st3 with snapshot := setCodebaseIndexing st3.snapshot args.path 0 }
      let st5 := { st4 with persistedSnapshots := st4.persistedSnapshots ++ [st4.snapshot] }
      let st6 := { st5 with trackedPaths := st5.trackedPaths ++ [args.path] }
      let st7 := { st6 with
        startedJobs := st6.startedJobs ++ [(args.path, forceReindex, splitterType)] }
      (⟨RespKind.started, false, some (jsToUpperCase splitterType)⟩, st7)

/-! ## ToolHandlers.startBackgroundIndexing

The background task runs on `this.context` whatever splitter was requested
(`contextForThisTask = this.context`, with only a warning for non-AST);
exceptions anywhere in the body are caught, turned into `indexfailed` state
with the last observed progress, and never re-thrown — hence the model is a
TOTAL function into `McpState` with no error channel.  The oracle supplies
the progress callbacks that were observed (percentage and `Date.now()`)
before the final outcome. -/

/-- The shared `Context` collaborator, reduced to the field the claims
need. -/

structure ContextModel where
  splitter : SplitterKind
deriving DecidableEq

/-- Modelled from the spec: the server (index-postgres.ts) constructs its
single `Context` from embedding and vector database only; the core
package's `Context` (not among the sources) defaults to the AST splitter,
as the handler's fallback warning and the spec's pipeline (§2) state. -/

def serverContext : ContextModel := ⟨SplitterKind.ast⟩

/-- Oracle for one background run: the observed progress callbacks and the
final outcome of the chunk/embed/insert loop (`Except.error` models any
exception raised in the `try` body). -/

structure BgEnv where
  events : List (ℚ × Int)
  outcome : Except String IndexStats
deriving DecidableEq

/-- One progress callback: update the snapshot entry, and persist it when
at least 2000 ms have elapsed since the last durable save. -/

def applyProgressEvent (path : String) (acc : McpState × Int) (ev : ℚ × Int) :
    McpState × Int :=
  let st := { acc.1 with snapshot := setCodebaseIndexing acc.1.snapshot path ev.1 }
  if ev.2 - acc.2 ≥ 2000 then
    ({ st with persistedSnapshots := st.persistedSnapshots ++ [st.snapshot] }, ev.2)
  else (st, acc.2)

/-- `ToolHandlers.startBackgroundIndexing`. -/

def startBackgroundIndexing (ctx : ContextModel) (path : String) (force : Bool)
    (splitterType : String) (env : BgEnv) (st : McpState) : McpState :=
  let st0 := { st with
    backgroundRuns := st.backgroundRuns ++ [⟨path, splitterType, ctx.splitter⟩] }
  let stE := (env.events.foldl (applyProgressEvent path) (st0, 0)).1
  match env.outcome with
  | Except.ok stats =>
    let stI := { stE with snapshot := setCodebaseIndexed stE.snapshot path stats }
    { stI with persistedSnapshots := stI.persistedSnapshots ++ [stI.snapshot] }
  | Except.error msg =>
    let lastProgress := getIndexingProgress stE.snapshot path
    let stF := { stE with
      snapshot := setCodebaseIndexFailed stE.snapshot path msg lastProgress }
    { stF with persistedSnapshots := stF.persistedSnapshots ++ [stF.snapshot] }

/-! ## ToolHandlers.searchAllCodebases -/

/-- The fields of a `semanticSearch` result the aggregator consumes. -/

structure SemanticSearchResult where
  relativePath : String
  startLine : Int
  endLine : Int
  content : String
  language : String
  score : Option ℚ
deriving DecidableEq

/-- One entry of `allResults`: the raw result tagged with its codebase,
`result.score || 0`, and the codebase's indexing flag. -/

structure TaggedResult where
  result : SemanticSearchResult
  codebasePath : String
  score : ℚ
  isIndexing : Bool
deriving DecidableEq

inductive AllSearchKind
  | noCodebases
  | noResults
  | results
deriving DecidableEq

/-- The aggregate search response, reduced to the observable distinctions:
which return site, the error flag, the ordered limited results, and the
indexing banner flag. -/

structure AllSearchResponse where
  kind : AllSearchKind
  isError : Bool
  items : List TaggedResult
  hasIndexingCodebase : Bool
deriving DecidableEq

/-- The per-codebase loop of `searchAllCodebases`: a throwing
`semanticSearch` (`Except.error`) contributes nothing and the loop
continues with the remaining codebases. -/

def collectAllResults (indexingCodebases : List String)
    (env : String → Except String (List SemanticSearchResult))
    (allCodebases : List String) : List TaggedResult :=
  allCodebases.flatMap fun cb =>
    match env cb with
    | Except.ok rs =>
      rs.map (fun r => ⟨r, cb, r.score.getD 0, indexingCodebases.contains cb⟩)
    | Except.error _ => []

/-- `ToolHandlers.searchAllCodebases`: fan out over indexed plus indexing
codebases, collect scored results, sort by descending score, cap at the
limit. -/

def searchAllCodebases (snapshot : SnapshotData)
    (env : String → Except String (List SemanticSearchResult))
    (resultLimit : Nat) : AllSearchResponse :=
  let indexedCodebases := getIndexedCodebases snapshot
  let indexingCodebases := getIndexingCodebases snapshot
  let allCodebases := indexedCodebases ++ indexingCodebases
  if allCodebases.isEmpty then ⟨AllSearchKind.noCodebases, true, [], false⟩
  else
    let hasIndexing := allCodebases.any (fun cb => indexingCodebases.contains cb)
    let allResults := collectAllResults indexingCodebases env allCodebases
    if allResults.isEmpty then ⟨AllSearchKind.noResults, false, [], hasIndexing⟩
    else
      ⟨AllSearchKind.results, false,
        (allResults.mergeSort (fun a b => decide (b.score ≤ a.score))).take resultLimit,
        hasIndexing⟩

/-! ## Concrete handler states for counterexamples and witnesses -/

/-- A state entry for a fully indexed codebase. -/

def indexedEntry : CodebaseEntry :=
  ⟨CodebaseStatus.indexed, none, none, none, some 1, some 2, none⟩

/-- A state entry for a codebase currently being indexed. -/

def indexingEntry : CodebaseEntry :=
  ⟨CodebaseStatus.indexing, some 0, none, none, none, none, none⟩

/-- The empty handler state. -/

def emptyState : McpState := ⟨[], [], [], [], [], [], [], []⟩

/-- A state in which path `"p"` is already indexed. -/

def limitState : McpState := ⟨[("p", indexedEntry)], [], [], [], [], [], [], []⟩

/-- A state in which path `"p"` is currently indexing. -/

def busyState : McpState := ⟨[("p", indexingEntry)], [], [], [], [], [], [], []⟩

/-- Environment in which the path is a directory, the store has an index
for it, and the collection-limit check reports the limit as reached. -/

def limitEnv : IndexEnv := ⟨true, true, true, Except.ok false⟩

/-- Environment in which the path is a directory and all checks pass. -/

def okEnv : IndexEnv := ⟨true, true, false, Except.ok true⟩

/-- A force re-index request for path `"p"`. -/

def limitArgs : IndexArgs := ⟨"p", some true, none, none, none⟩

/-- A plain index request for path `"p"`. -/

def plainArgs : IndexArgs := ⟨"p", none, none, none, none⟩

/-- An index request for path `"p"` asking for the langchain splitter. -/

def langchainArgs : IndexArgs := ⟨"p", none, some "langchain", none, none⟩

/-- A background run that reports 50% once and then fails. -/

def bgDemoEnv : BgEnv := ⟨[(50, 3000)], Except.error "boom"⟩

/-- A search result used by the multi-codebase witness. -/

def demoResult : SemanticSearchResult :=
  ⟨"f.ts", 1, 3, "const x = 1", "typescript", some (1 / 2)⟩

/-- Search oracle: codebase `"a"` throws, every other codebase returns one
result. -/

def demoSearchEnv : String → Except String (List SemanticSearchResult) :=
  fun c => if c = "a" then Except.error "down" else Except.ok [demoResult]

/-- Two indexed codebases `"a"` and `"b"`. -/

def demoSnapshot : SnapshotData := [("a", indexedEntry), ("b", indexedEntry)]

/-! ## AstCodeSplitter.extractChunks

The tree-sitter syntax tree is embedded as a mutual inductive (node and
ordered child forest).  A node carries its type, start/end rows (0-based,
as `startPosition.row`/`endPosition.row`), start/end byte indexes and its
children.  `wfT`/`wfF` state the positional invariants tree-sitter
guarantees and that the monotonicity argument needs: a node's start row is
at most its end row, children lie within the parent's rows, and consecutive
siblings are ordered (previous end row ≤ next start row). -/

mutual

inductive STree where
  | mk (type : String) (sRow eRow sIdx eIdx : Nat) (children : SForest)

inductive SForest where
  | nil
  | cons (t : STree) (ts : SForest)

end

def STree.sRow : STree → Nat
  | STree.mk _ s _ _ _ _ => s

def STree.eRow : STree → Nat
  | STree.mk _ _ e _ _ _ => e

mutual

def wfT : STree → Bool
  | STree.mk _ s e _ _ cs => decide (s ≤ e) && wfF s e cs

def wfF : Nat → Nat → SForest → Bool
  | _, _, SForest.nil => true
  | lo, hi, SForest.cons t ts =>
    decide (lo ≤ t.sRow) && decide (t.eRow ≤ hi) && wfT t && wfF t.eRow hi ts

end

/-- JS `String.prototype.toLowerCase` for the ASCII language names. -/

def jsToLowerCase (s : String) : String := ⟨s.data.map Char.toLower⟩

/-- `SPLITTABLE_NODE_TYPES.javascript` (the table entry the proofs and
counterexamples instantiate; the other language entries are analogous
static lists). -/

def splittableNodeTypesJavascript : List String :=
  ["function_declaration", "arrow_function", "class_declaration",
   "method_definition", "export_statement"]

/-- The `definitionTypes` table of `isDefinitionNode`; an unknown language
yields `[]`, making the membership test false like the JS
`types ? types.includes(nodeType) : false`. -/

def definitionTypesFor (language : String) : List String :=
  let l := jsToLowerCase language
  if l = "javascript" then
    ["function_declaration", "class_declaration", "method_definition"]
  else if l = "typescript" then
    ["function_declaration", "class_declaration", "method_definition",
     "interface_declaration", "type_alias_declaration"]
  else if l = "python" then
    ["function_definition", "class_definition", "async_function_definition"]
  else if l = "java" then
    ["method_declaration", "class_declaration", "interface_declaration",
     "constructor_declaration"]
  else if l = "cpp" then ["function_definition", "class_specifier"]
  else if l = "go" then
    ["function_declaration", "method_declaration", "type_declaration"]
  else if l = "rust" then ["function_item", "struct_item", "enum_item", "trait_item"]
  else if l = "csharp" then
    ["method_declaration", "class_declaration", "interface_declaration",
     "struct_declaration"]
  else if l = "scala" then
    ["method_declaration", "class_declaration", "interface_declaration"]
  else if l = "dart" then
    ["class_definition", "enum_declaration", "mixin_declaration",
     "function_signature", "method_signature"]
  else []

/-- `AstCodeSplitter.isDefinitionNode`. -/

def isDefinitionNode (nodeType language : String) : Bool :=
  (definitionTypesFor language).contains nodeType

mutual

/-- The `traverse` closure of `extractChunks`: emit a chunk for a
splittable node with non-blank text, then recurse into all children
(pre-order). -/
def extractNode (splittableTypes : List String) (code : List Char)
    (language : String) (filePath : Option String) : STree → List CodeChunk
  | STree.mk ty sRow eRow sIdx eIdx cs =>
    (if ty ∈ splittableTypes ∧ (trimChars (sliceChars code sIdx eIdx)).length > 0 then
      [⟨sliceChars code sIdx eIdx, (sRow : Int) + 1, (eRow : Int) + 1, language,
        filePath, some (isDefinitionNode ty language)⟩]
    else []) ++ extractForest splittableTypes code language filePath cs

def extractForest (splittableTypes : List String) (code : List Char)
    (language : String) (filePath : Option String) : SForest → List CodeChunk
  | SForest.nil => []
  | SForest.cons t ts =>
    extractNode splittableTypes code language filePath t ++
      extractForest splittableTypes code language filePath ts

end

/-- `AstCodeSplitter.extractChunks`: depth-first traversal plus the
whole-file fallback chunk when no node produced a chunk. -/

def extractChunks (splittableTypes : List String) (code : List Char)
    (language : String) (filePath : Option String) (root : STree) :
    List CodeChunk :=
  let chunks := extractNode splittableTypes code language filePath root
  if chunks.isEmpty then
    [⟨code, 1, ((splitNL code).length : Int), language, filePath, none⟩]
  else chunks

/-- A splittable child sharing its parent's span (an `export_statement`
wrapping a `function_declaration`). -/

def demoChild : STree := STree.mk "function_declaration" 0 2 0 14 SForest.nil

/-- The parent node of `demoChild`, spanning the same three rows. -/

def demoTree : STree :=
  STree.mk "export_statement" 0 2 0 14 (SForest.cons demoChild SForest.nil)

/-- A three-line source text of 14 characters. -/

def demoCode : List Char := "aaaa\nbbbb\ncccc".toList

theorem trimChars_length_le (s : List Char) : (trimChars s).length ≤ s.length := by
  unfold trimChars
  calc ((s.dropWhile isJsWhitespace).reverse.dropWhile isJsWhitespace).reverse.length
      = ((s.dropWhile isJsWhitespace).reverse.dropWhile isJsWhitespace).length := by
        simp
    _ ≤ (s.dropWhile isJsWhitespace).reverse.length :=
        (List.dropWhile_sublist _).length_le
    _ = (s.dropWhile isJsWhitespace).length := by simp
    _ ≤ s.length := (List.dropWhile_sublist _).length_le

theorem sliceLast_length_le (n : Nat) (s : List Char) :
    (sliceLast n s).length ≤ n := by
  unfold sliceLast
  rw [List.length_drop]
  omega

theorem splitNL_ne_nil (s : List Char) : splitNL s ≠ [] := by
  induction s with
  | nil => simp [splitNL]
  | cons c rest ih =>
    unfold splitNL
    split
    · simp
    · cases h : splitNL rest <;> simp

/-! ## Size bounds for the Refiner -/

theorem slcLoop_content_le (chunkSize : Nat) (base : Int) (language : String)
    (filePath : Option String) (lines : List (List Char)) :
    ∀ (i : Nat) (cur : List Char) (curStart : Int) (curCount : Nat),
    (∀ l ∈ lines, l.length + 1 ≤ chunkSize) → cur.length ≤ chunkSize →
    ∀ c ∈ slcLoop chunkSize base language filePath lines i cur curStart curCount,
      c.content.length ≤ chunkSize := by
  induction lines with
  | nil =>
    intro i cur curStart curCount _ hcur c hc
    simp only [slcLoop] at hc
    split at hc
    · rw [List.mem_singleton] at hc
      subst hc
      exact le_trans (trimChars_length_le cur) hcur
    · simp at hc
  | cons l rest ih =>
    intro i cur curStart curCount hlines hcur c hc
    have hlwle : (lineWithNL rest.isEmpty l).length ≤ chunkSize := by
      have hl := hlines l (by simp)
      unfold lineWithNL
      split
      · omega
      · simp only [List.length_append, List.length_cons, List.length_nil]
        omega
    simp only [slcLoop] at hc
    split at hc
    · rw [List.mem_cons] at hc
      rcases hc with hc | hc
      · subst hc
        exact le_trans (trimChars_length_le cur) hcur
      · exact ih (i + 1) _ (base + i) 1 (fun x hx => hlines x (by simp [hx])) hlwle c hc
    · rename_i hcond
      refine ih (i + 1) _ curStart (curCount + 1) (fun x hx => hlines x (by simp [hx])) ?_ c hc
      rw [List.length_append]
      rcases Decidable.not_and_iff_or_not.mp hcond with hle | hzero
      · omega
      · have : cur.length = 0 := by omega
        omega

theorem splitStage_content_le (chunkSize : Nat) (chunks : List CodeChunk)
    (h : ∀ c ∈ chunks, ∀ l ∈ splitNL c.content, l.length + 1 ≤ chunkSize) :
    ∀ c ∈ splitStage chunkSize chunks, c.content.length ≤ chunkSize := by
  intro c hc
  rw [splitStage, List.mem_flatMap] at hc
  obtain ⟨a, ha, hc⟩ := hc
  split at hc
  · rw [List.mem_singleton] at hc
    subst hc
    assumption
  · exact slcLoop_content_le chunkSize a.startLine a.language a.filePath
      (splitNL a.content) 0 [] a.startLine 0 (h a ha) (by simp) c hc

theorem overlapTail_mem (chunkOverlap : Nat) :
    ∀ (prev : CodeChunk) (l : List CodeChunk) (x : CodeChunk),
    x ∈ overlapTail chunkOverlap prev l →
    ∃ p c, (p = prev ∨ p ∈ l) ∧ c ∈ l ∧ x = applyOverlap chunkOverlap p c := by
  intro prev l
  induction l generalizing prev with
  | nil => simp [overlapTail]
  | cons c rest ih =>
    intro x hx
    simp only [overlapTail, List.mem_cons] at hx
    rcases hx with hx | hx
    · exact ⟨prev, c, Or.inl rfl, by simp, hx⟩
    · obtain ⟨p, c', hp, hc', hx⟩ := ih c x hx
      refine ⟨p, c', ?_, by simp [hc'], hx⟩
      rcases hp with hp | hp
      · exact Or.inr (by simp [hp])
      · exact Or.inr (by simp [hp])

theorem addOverlap_content_le (chunkSize chunkOverlap : Nat)
    (chunks : List CodeChunk)
    (h : ∀ c ∈ chunks, c.content.length ≤ chunkSize) :
    ∀ c ∈ addOverlap chunkOverlap chunks,
      c.content.length ≤ chunkSize + chunkOverlap + 1 := by
  intro c hc
  unfold addOverlap at hc
  split at hc
  · exact le_trans (h c hc) (by omega)
  · cases chunks with
    | nil => simp at hc
    | cons c0 rest =>
      rw [List.mem_cons] at hc
      rcases hc with hc | hc
      · subst hc
        exact le_trans (h c (by simp)) (by omega)
      · obtain ⟨p, c', hp, hc', hx⟩ := overlapTail_mem chunkOverlap c0 rest c hc
        subst hx
        have h1 : (sliceLast chunkOverlap p.content).length ≤ chunkOverlap :=
          sliceLast_length_le _ _
        have h2 : c'.content.length ≤ chunkSize := h c' (by simp [hc'])
        simp only [applyOverlap, List.length_append, List.length_cons]
        omega

/-! ## Indexing behaviour of addOverlap -/

theorem overlapTail_length (chunkOverlap : Nat) :
    ∀ (prev : CodeChunk) (l : List CodeChunk),
    (overlapTail chunkOverlap prev l).length = l.length := by
  intro prev l
  induction l generalizing prev with
  | nil => rfl
  | cons c rest ih => simp [overlapTail, ih c]

theorem getLineCount_eq (s : List Char) : getLineCount s = countNL s + 1 := by
  induction s with
  | nil => rfl
  | cons c rest ih =>
    by_cases hc : c = '\n'
    · subst hc
      have h1 : splitNL ('\n' :: rest) = [] :: splitNL rest := by
        simp [splitNL]
      have h2 : countNL ('\n' :: rest) = countNL rest + 1 := by
        simp [countNL, List.filter_cons]
      rw [getLineCount, h1, List.length_cons, h2]
      rw [getLineCount] at ih
      omega
    · have h2 : countNL (c :: rest) = countNL rest := by
        simp [countNL, List.filter_cons, hc]
      cases h : splitNL rest with
      | nil => exact absurd h (splitNL_ne_nil rest)
      | cons l ls =>
        have h1 : splitNL (c :: rest) = (c :: l) :: ls := by
          rw [splitNL, if_neg hc, h]
        rw [getLineCount, h1]
        rw [getLineCount, h] at ih
        simp only [List.length_cons] at ih ⊢
        omega

theorem overlapTail_getElem? (chunkOverlap : Nat) :
    ∀ (l : List CodeChunk) (prev : CodeChunk) (i : Nat) (prevC cur : CodeChunk),
    (prev :: l)[i]? = some prevC → l[i]? = some cur →
    (overlapTail chunkOverlap prev l)[i]? =
      some (applyOverlap chunkOverlap prevC cur) := by
  intro l
  induction l with
  | nil => intro prev i prevC cur _ h2; simp at h2
  | cons c rest ih =>
    intro prev i prevC cur h1 h2
    cases i with
    | zero =>
      simp only [List.getElem?_cons_zero, Option.some.injEq] at h1 h2
      subst h1; subst h2
      simp [overlapTail]
    | succ n =>
      simp only [List.getElem?_cons_succ] at h1 h2
      simpa only [overlapTail, List.getElem?_cons_succ] using ih c n prevC cur h1 h2

/-- C1.  The claim `content.length <= maxSize + overlapSize` fails: with
`maxSize = 2` and `overlapSize = 1`, the two chunks `"ab"` and `"cd"` pass
the splitting stage untouched, and the overlap pass turns the second chunk
into `"b\ncd"` of length 4 > 2 + 1, because the overlap text is joined with
an extra `'\n'` that the claimed bound does not account for. -/

theorem c1_refiner_bound_counterexample :
    ¬ (∀ c ∈ refineChunks 2 1 [overlapDemoA, overlapDemoB],
        c.content.length ≤ 2 + 1) := by
  decide

/-- C1 (amended).  Provided every line of every input chunk fits in
`maxSize` together with its newline (`line.length + 1 ≤ maxSize`), every
chunk produced by the Refiner (`splitLargeChunk` on oversized chunks
followed by `addOverlap`) has `content.length ≤ maxSize + overlapSize + 1`:
the overlap prefix plus its joining newline is the only allowed excess over
`maxSize`.  (Without the line-length proviso a single line longer than
`maxSize` passes through `splitLargeChunk` intact and the bound fails
already before overlap.) -/

theorem c1_refiner_bound_amended (chunkSize chunkOverlap : Nat)
    (chunks : List CodeChunk)
    (h : ∀ c ∈ chunks, ∀ l ∈ splitNL c.content, l.length + 1 ≤ chunkSize) :
    ∀ c ∈ refineChunks chunkSize chunkOverlap chunks,
      c.content.length ≤ chunkSize + chunkOverlap + 1 :=
  addOverlap_content_le chunkSize chunkOverlap _
    (splitStage_content_le chunkSize chunks h)

theorem c1_refiner_bound_witness :
    (∀ c ∈ [overlapDemoA, overlapDemoB], ∀ l ∈ splitNL c.content,
        l.length + 1 ≤ 3) ∧
    (∀ c ∈ refineChunks 3 1 [overlapDemoA, overlapDemoB],
        c.content.length ≤ 3 + 1 + 1) :=
  ⟨by decide,
   c1_refiner_bound_amended 3 1 [overlapDemoA, overlapDemoB] (by decide)⟩

/-- C2.  The claim that `addOverlap` decreases `startLine` by exactly the
number of newline characters in the overlap text fails: the overlap text
`"b"` taken from `"ab"` contains no newline, yet the second chunk's
`startLine` moves from 5 to 4, because the code subtracts
`getLineCount(overlapText) = newlines + 1`, not the newline count. -/

theorem c2_overlap_step_counterexample :
    ¬ (((addOverlap 1 [overlapDemoA, overlapDemoB])[1]?).map
        (fun c => c.startLine) =
      some (max 1 (overlapDemoB.startLine -
        (countNL (sliceLast 1 overlapDemoA.content) : Int)))) := by
  decide

/-- C2 (amended).  For more than one chunk and `overlapSize > 0`, each chunk
except the first gets the last `overlapSize` characters of its predecessor's
content prepended, joined by a newline, and its `startLine` decreases by the
number of newline characters in the overlap text PLUS ONE (the line count of
the overlap text, equivalently the newline count of the whole prepended
prefix including the joining newline), floored at line 1; the first chunk
and the sequence length are unchanged. -/

theorem c2_overlap_step_amended (chunkOverlap : Nat) (chunks : List CodeChunk)
    (h1 : 1 < chunks.length) (h2 : 0 < chunkOverlap) (i : Nat)
    (prevC cur : CodeChunk)
    (hp : chunks[i]? = some prevC) (hc : chunks[i + 1]? = some cur) :
    (addOverlap chunkOverlap chunks)[i + 1]? =
      some { cur with
        content := sliceLast chunkOverlap prevC.content ++ '\n' :: cur.content
        startLine := max 1 (cur.startLine -
          ((countNL (sliceLast chunkOverlap prevC.content) : Int) + 1)) } ∧
    (addOverlap chunkOverlap chunks)[0]? = chunks[0]? ∧
    (addOverlap chunkOverlap chunks).length = chunks.length := by
  have hguard : ¬ (chunks.length ≤ 1 ∨ chunkOverlap = 0) := by omega
  rw [addOverlap.eq_def, if_neg hguard]
  cases chunks with
  | nil => simp at h1
  | cons c0 rest =>
    refine ⟨?_, by simp, by simp [overlapTail_length]⟩
    rw [List.getElem?_cons_succ] at hc
    have := overlapTail_getElem? chunkOverlap rest c0 i prevC cur hp hc
    rw [List.getElem?_cons_succ, this]
    have hcast : ((getLineCount (sliceLast chunkOverlap prevC.content) : Nat) : Int)
        = (countNL (sliceLast chunkOverlap prevC.content) : Int) + 1 := by
      rw [getLineCount_eq]
      push_cast
      ring
    simp [applyOverlap, hcast]

theorem c2_overlap_step_witness :
    (addOverlap 1 [overlapDemoA, overlapDemoB])[0 + 1]? =
      some { overlapDemoB with
        content := sliceLast 1 overlapDemoA.content ++ '\n' :: overlapDemoB.content
        startLine := max 1 (overlapDemoB.startLine -
          ((countNL (sliceLast 1 overlapDemoA.content) : Int) + 1)) } ∧
    (addOverlap 1 [overlapDemoA, overlapDemoB])[0]? =
      [overlapDemoA, overlapDemoB][0]? ∧
    (addOverlap 1 [overlapDemoA, overlapDemoB]).length =
      [overlapDemoA, overlapDemoB].length :=
  c2_overlap_step_amended 1 [overlapDemoA, overlapDemoB] (by decide) (by decide)
    0 overlapDemoA overlapDemoB (by decide) (by decide)

theorem replaceAll_of_not_hasSubstr (pat rep : List Char) :
    ∀ s : List Char, hasSubstr pat s = false → replaceAll pat rep s = s := by
  intro s
  induction s with
  | nil => intro _; rw [replaceAll]
  | cons c rest ih =>
    intro h
    rw [hasSubstr, Bool.or_eq_false_iff] at h
    rw [replaceAll, if_neg (fun hand => by rw [hand.2] at h; exact absurd h.1 (by simp)),
      ih h.2]

theorem rewriteInClause_of_not_hasSubstr :
    ∀ s : List Char, hasSubstr inClausePat s = false → rewriteInClause s = s := by
  intro s
  induction s with
  | nil => intro _; rw [rewriteInClause]
  | cons c rest ih =>
    intro h
    rw [hasSubstr, Bool.or_eq_false_iff] at h
    rw [rewriteInClause, if_neg (by rw [h.1]; exact Bool.false_ne_true), ih h.2]

/-- C7.  (1) For every input, the translated filter expression contains no
`;` character, so a filter string containing `;` never yields a
multi-statement expression.  (2) Input that contains none of the rewritten
patterns and no `;` passes through unchanged. -/

theorem c7_filter_injection_prevention :
    (∀ s : List Char, ';' ∉ parseFilterExpression s) ∧
    (∀ s : List Char, s ≠ [] →
      hasSubstr "relativePath".toList s = false →
      hasSubstr "startLine".toList s = false →
      hasSubstr "endLine".toList s = false →
      hasSubstr "fileExtension".toList s = false →
      hasSubstr " == ".toList s = false →
      hasSubstr inClausePat s = false →
      ';' ∉ s →
      parseFilterExpression s = s) := by
  constructor
  · intro s
    rw [parseFilterExpression]
    split
    · decide
    · intro hmem
      rw [List.mem_filter] at hmem
      simp at hmem
  · intro s hne h1 h2 h3 h4 h5 h6 hsemi
    rw [parseFilterExpression]
    rw [replaceAll_of_not_hasSubstr _ _ s h1, replaceAll_of_not_hasSubstr _ _ s h2,
      replaceAll_of_not_hasSubstr _ _ s h3, replaceAll_of_not_hasSubstr _ _ s h4,
      replaceAll_of_not_hasSubstr _ _ s h5, rewriteInClause_of_not_hasSubstr s h6]
    have hfil : s.filter (· ≠ ';') = s := by
      rw [List.filter_eq_self]
      intro a ha
      simp only [ne_eq, decide_eq_true_eq]
      intro heq
      rw [heq] at ha
      exact hsemi ha
    rw [hfil]
    rw [if_neg (by simpa [List.isEmpty_iff] using hne)]

theorem c7_filter_injection_prevention_witness :
    parseFilterExpression ['x'] = ['x'] :=
  c7_filter_injection_prevention.2 ['x'] (by decide) (by decide) (by decide)
    (by decide) (by decide) (by decide) (by decide) (by decide)

theorem scoreDesc_trans :
    ∀ a b c : DbRow × ℚ, decide (b.2 ≤ a.2) = true → decide (c.2 ≤ b.2) = true →
      decide (c.2 ≤ a.2) = true := by
  intro a b c h1 h2
  simp only [decide_eq_true_eq] at h1 h2 ⊢
  exact le_trans h2 h1

theorem scoreDesc_total :
    ∀ a b : DbRow × ℚ, (decide (b.2 ≤ a.2) || decide (a.2 ≤ b.2)) = true := by
  intro a b
  simp only [Bool.or_eq_true, decide_eq_true_eq]
  exact le_total _ _

/-- C5.  With a lexical query text, every returned candidate is scored
`vectorScore*0.7 + lexicalScore*0.3 + (0.1 if isDefinition)` with missing
candidate-set scores defaulting to 0, and comes from the union of the two
candidate sets (outer join); with an empty lexical text the score is
`vectorScore + bonus` and the results are restricted to the vector
candidates (inner join); results are at most `topK` and ordered by
descending final score. -/

theorem c5_hybrid_fusion (table : List DbRow) (topK : Nat) (queryText : String) :
    (queryText ≠ "" → ∀ p ∈ hybridSearch table topK queryText,
      (p.2 = 7 / 10 * ((lookupScore (vectorCandidates table topK) p.1.id).getD 0)
           + 3 / 10 * ((lookupScore (ftsCandidates table topK) p.1.id).getD 0)
           + definitionBonus p.1) ∧
      ((lookupScore (vectorCandidates table topK) p.1.id).isSome ∨
       (lookupScore (ftsCandidates table topK) p.1.id).isSome)) ∧
    (queryText = "" → ∀ p ∈ hybridSearch table topK queryText,
      (p.2 = (lookupScore (vectorCandidates table topK) p.1.id).getD 0
           + definitionBonus p.1) ∧
      (lookupScore (vectorCandidates table topK) p.1.id).isSome) ∧
    (hybridSearch table topK queryText).length ≤ topK ∧
    List.Pairwise (fun a b : DbRow × ℚ => b.2 ≤ a.2)
      (hybridSearch table topK queryText) := by
  refine ⟨?_, ?_, ?_, ?_⟩
  · intro hq p hp
    rw [hybridSearch, if_pos hq] at hp
    have hp' := List.mem_mergeSort.mp (List.mem_of_mem_take hp)
    obtain ⟨t, ht, heq⟩ := List.mem_map.mp hp'
    obtain ⟨htab, hpred⟩ := List.mem_filter.mp ht
    subst heq
    simp only [Bool.or_eq_true, Option.isSome_iff_exists] at hpred
    refine ⟨rfl, ?_⟩
    rcases hpred with h | h
    · exact Or.inl (by simpa [Option.isSome_iff_exists] using h)
    · exact Or.inr (by simpa [Option.isSome_iff_exists] using h)
  · intro hq p hp
    rw [hybridSearch, if_neg (by simp [hq])] at hp
    have hp' := List.mem_mergeSort.mp (List.mem_of_mem_take hp)
    obtain ⟨t, ht, heq⟩ := List.mem_map.mp hp'
    obtain ⟨htab, hpred⟩ := List.mem_filter.mp ht
    subst heq
    exact ⟨rfl, hpred⟩
  · rw [hybridSearch]
    split <;> exact List.length_take_le _ _
  · have hsorted : ∀ l : List (DbRow × ℚ),
        List.Pairwise (fun a b : DbRow × ℚ => b.2 ≤ a.2)
          ((l.mergeSort (fun a b => decide (b.2 ≤ a.2))).take topK) := by
      intro l
      have h := List.sorted_mergeSort scoreDesc_trans scoreDesc_total l
      exact (List.Pairwise.sublist (List.take_sublist _ _) h).imp
        (fun h => by simpa [decide_eq_true_eq] using h)
    rw [hybridSearch]
    split <;> exact hsorted _

theorem c5_hybrid_fusion_witness :
    (("q" : String) ≠ "" → ∀ p ∈ hybridSearch [demoRow] 2 "q",
      (p.2 = 7 / 10 * ((lookupScore (vectorCandidates [demoRow] 2) p.1.id).getD 0)
           + 3 / 10 * ((lookupScore (ftsCandidates [demoRow] 2) p.1.id).getD 0)
           + definitionBonus p.1) ∧
      ((lookupScore (vectorCandidates [demoRow] 2) p.1.id).isSome ∨
       (lookupScore (ftsCandidates [demoRow] 2) p.1.id).isSome)) ∧
    (("q" : String) = "" → ∀ p ∈ hybridSearch [demoRow] 2 "q",
      (p.2 = (lookupScore (vectorCandidates [demoRow] 2) p.1.id).getD 0
           + definitionBonus p.1) ∧
      (lookupScore (vectorCandidates [demoRow] 2) p.1.id).isSome) ∧
    (hybridSearch [demoRow] 2 "q").length ≤ 2 ∧
    List.Pairwise (fun a b : DbRow × ℚ => b.2 ≤ a.2) (hybridSearch [demoRow] 2 "q") :=
  c5_hybrid_fusion [demoRow] 2 "q"

/-! ## Snapshot and handler state lemmas -/

theorem lookupEntry_setEntry (m : SnapshotData) (path : String)
    (e : CodebaseEntry) : lookupEntry (setEntry m path e) path = some e := by
  unfold lookupEntry setEntry
  rw [List.find?_append]
  have h1 : (m.filter (fun q => decide (q.1 ≠ path))).find?
      (fun p => decide (p.1 = path)) = none := by
    rw [List.find?_eq_none]
    intro x hx
    have hfil := (List.mem_filter.mp hx).2
    simp only [decide_eq_true_eq] at hfil ⊢
    exact hfil
  rw [h1]
  simp

theorem forceClearStage_fields (env : IndexEnv) (path : String) (force : Bool)
    (st : McpState) :
    (forceClearStage env path force st).startedJobs = st.startedJobs ∧
    (forceClearStage env path force st).persistedSnapshots = st.persistedSnapshots ∧
    (forceClearStage env path force st).backgroundRuns = st.backgroundRuns ∧
    (forceClearStage env path force st).customExtensions = st.customExtensions ∧
    (forceClearStage env path force st).customIgnorePatterns = st.customIgnorePatterns ∧
    (forceClearStage env path force st).trackedPaths = st.trackedPaths := by
  unfold forceClearStage
  split_ifs <;> exact ⟨rfl, rfl, rfl, rfl, rfl, rfl⟩

theorem applyProgressEvents_backgroundRuns (path : String)
    (events : List (ℚ × Int)) :
    ∀ acc : McpState × Int,
    ((events.foldl (applyProgressEvent path) acc).1).backgroundRuns =
      acc.1.backgroundRuns := by
  induction events with
  | nil => intro acc; rfl
  | cons e rest ih =>
    intro acc
    rw [List.foldl_cons, ih]
    unfold applyProgressEvent
    split <;> rfl

/-! ## C3: pre-flight collection-limit check -/

/-- C3.  The claim fails on both counts at this input: with `force = true`
on an already-indexed path, `handleIndexCodebase` removes the indexed entry
and clears the collection BEFORE running `checkCollectionLimit`, and when
the check then reports the limit, the collection-limit message is returned
with `isError: true` — an error response, not a successful one. -/

theorem c3_collection_limit_counterexample :
    (handleIndexCodebase limitEnv limitArgs limitState).1.kind =
      RespKind.collectionLimit ∧
    (handleIndexCodebase limitEnv limitArgs limitState).1.isError = true ∧
    (handleIndexCodebase limitEnv limitArgs limitState).2.clearedIndexes = ["p"] ∧
    (handleIndexCodebase limitEnv limitArgs limitState).2.snapshot = [] := by
  decide

/-- C3 (amended).  When `checkCollectionLimit` returns false during a
start-indexing request that passed validation, the handler returns the
distinguished collection-limit message as an ERROR response
(`isError: true`), does not enter `indexing`, saves no snapshot and starts
no background job; with `force = false` no state is mutated at all, but
with `force = true` the already-indexed entry and the existing collection
are cleared before the check runs. -/

theorem c3_collection_limit_amended (env : IndexEnv) (args : IndexArgs)
    (st : McpState)
    (hS : args.splitter.getD "ast" = "ast" ∨ args.splitter.getD "ast" = "langchain")
    (hE : env.pathExists = true) (hD : env.isDirectory = true)
    (hI : args.path ∉ getIndexingCodebases st.snapshot)
    (hX : args.force.getD false = true ∨ args.path ∉ getIndexedCodebases st.snapshot)
    (hL : env.collectionLimit = Except.ok false) :
    handleIndexCodebase env args st =
      (mkErr RespKind.collectionLimit,
        forceClearStage env args.path (args.force.getD false) st) ∧
    (handleIndexCodebase env args st).2.startedJobs = st.startedJobs ∧
    (handleIndexCodebase env args st).2.persistedSnapshots = st.persistedSnapshots ∧
    (args.force.getD false = false → (handleIndexCodebase env args st).2 = st) := by
  have hx5 : ¬ (args.force.getD false = false ∧
      args.path ∈ getIndexedCodebases st.snapshot) := by
    rcases hX with h | h
    · rw [h]; simp
    · simp [h]
  have hmain : handleIndexCodebase env args st =
      (mkErr RespKind.collectionLimit,
        forceClearStage env args.path (args.force.getD false) st) := by
    simp only [handleIndexCodebase]
    rw [if_neg (not_not_intro hS), if_neg (by simp [hE]), if_neg (by simp [hD]),
      if_neg hI, if_neg hx5, hL]
  refine ⟨hmain, ?_, ?_, ?_⟩
  · rw [hmain]
    exact (forceClearStage_fields env args.path (args.force.getD false) st).1
  · rw [hmain]
    exact (forceClearStage_fields env args.path (args.force.getD false) st).2.1
  · intro hf
    rw [hmain]
    simp [forceClearStage, hf]

theorem c3_collection_limit_witness :
    handleIndexCodebase limitEnv limitArgs limitState =
      (mkErr RespKind.collectionLimit,
        forceClearStage limitEnv limitArgs.path (limitArgs.force.getD false)
          limitState) ∧
    (handleIndexCodebase limitEnv limitArgs limitState).2.startedJobs =
      limitState.startedJobs ∧
    (handleIndexCodebase limitEnv limitArgs limitState).2.persistedSnapshots =
      limitState.persistedSnapshots ∧
    (limitArgs.force.getD false = false →
      (handleIndexCodebase limitEnv limitArgs limitState).2 = limitState) :=
  c3_collection_limit_amended limitEnv limitArgs limitState (by decide) (by decide)
    (by decide) (by decide) (by decide) (by decide)

/-! ## C4: at most one indexing job per path -/

/-- C4.  A start-indexing request for a path whose status is already
`indexing` is answered with an error response, mutates no state, and is not
queued (no job request is recorded): every return path reachable while the
path is in the indexing list leaves the state untouched with
`isError: true`. -/

theorem c4_single_indexing_job (env : IndexEnv) (args : IndexArgs) (st : McpState)
    (h : args.path ∈ getIndexingCodebases st.snapshot) :
    (handleIndexCodebase env args st).2 = st ∧
    (handleIndexCodebase env args st).1.isError = true := by
  simp only [handleIndexCodebase]
  split
  · exact ⟨rfl, rfl⟩
  · split
    · exact ⟨rfl, rfl⟩
    · split
      · exact ⟨rfl, rfl⟩
      · exact ⟨rfl, rfl⟩

theorem c4_single_indexing_job_witness :
    (handleIndexCodebase okEnv plainArgs busyState).2 = busyState ∧
    (handleIndexCodebase okEnv plainArgs busyState).1.isError = true :=
  c4_single_indexing_job okEnv plainArgs busyState (by decide)

/-! ## C6: background indexing failures are swallowed into state -/

/-- C6.  Whatever exception message the chunk/embed/insert loop produces,
`startBackgroundIndexing` records `indexfailed` for the path carrying that
message and the last observed progress percentage, persists the snapshot as
the final durable save, and (being a total function into `McpState`, with
no error channel) never re-throws. -/

theorem c6_background_failure_recorded (ctx : ContextModel) (path : String)
    (force : Bool) (splitterType : String) (env : BgEnv) (st : McpState)
    (msg : String) (h : env.outcome = Except.error msg) :
    getCodebaseStatus
        (startBackgroundIndexing ctx path force splitterType env st).snapshot
        path = CodebaseStatus.indexfailed ∧
    lookupEntry
        (startBackgroundIndexing ctx path force splitterType env st).snapshot
        path =
      some ⟨CodebaseStatus.indexfailed, none, some msg,
        getIndexingProgress
          ((env.events.foldl (applyProgressEvent path)
            ({ st with backgroundRuns :=
                st.backgroundRuns ++ [⟨path, splitterType, ctx.splitter⟩] },
              0)).1).snapshot path,
        none, none, none⟩ ∧
    (startBackgroundIndexing ctx path force splitterType env st).persistedSnapshots.getLast? =
      some (startBackgroundIndexing ctx path force splitterType env st).snapshot := by
  simp only [startBackgroundIndexing, h, setCodebaseIndexFailed]
  refine ⟨?_, ?_, ?_⟩
  · simp [getCodebaseStatus, lookupEntry_setEntry]
  · simp [lookupEntry_setEntry]
  · simp [List.getLast?_concat]

theorem c6_background_failure_recorded_witness :
    getCodebaseStatus
        (startBackgroundIndexing serverContext "p" false "ast" bgDemoEnv
          emptyState).snapshot "p" = CodebaseStatus.indexfailed ∧
    lookupEntry
        (startBackgroundIndexing serverContext "p" false "ast" bgDemoEnv
          emptyState).snapshot "p" =
      some ⟨CodebaseStatus.indexfailed, none, some "boom",
        getIndexingProgress
          ((bgDemoEnv.events.foldl (applyProgressEvent "p")
            ({ emptyState with backgroundRuns :=
                emptyState.backgroundRuns ++
                  [⟨"p", "ast", serverContext.splitter⟩] },
              0)).1).snapshot "p",
        none, none, none⟩ ∧
    (startBackgroundIndexing serverContext "p" false "ast" bgDemoEnv
        emptyState).persistedSnapshots.getLast? =
      some (startBackgroundIndexing serverContext "p" false "ast" bgDemoEnv
        emptyState).snapshot :=
  c6_background_failure_recorded serverContext "p" false "ast" bgDemoEnv
    emptyState "boom" rfl

/-! ## C9: per-codebase failures are isolated in multi-codebase search -/

theorem collectAllResults_cons (indexingCodebases : List String)
    (env : String → Except String (List SemanticSearchResult))
    (a : String) (rest : List String) :
    collectAllResults indexingCodebases env (a :: rest) =
      (match env a with
        | Except.ok rs =>
          rs.map (fun r => ⟨r, a, r.score.getD 0, indexingCodebases.contains a⟩)
        | Except.error _ => []) ++
        collectAllResults indexingCodebases env rest := by
  rw [collectAllResults, List.flatMap_cons]
  rfl

theorem collectAllResults_replace (indexingCodebases : List String)
    (env : String → Except String (List SemanticSearchResult))
    (cb : String) (e : String) (h : env cb = Except.error e) :
    ∀ allCodebases,
    collectAllResults indexingCodebases env allCodebases =
      collectAllResults indexingCodebases
        (fun c => if c = cb then Except.ok [] else env c) allCodebases := by
  intro allCodebases
  induction allCodebases with
  | nil => rfl
  | cons a rest ih =>
    rw [collectAllResults_cons, collectAllResults_cons, ih]
    congr 1
    by_cases ha : a = cb
    · subst ha
      rw [h, if_pos rfl]
      simp
    · rw [if_neg ha]

/-- C9.  Replacing a failing codebase's search by an empty success changes
nothing about the aggregate response: the failing codebase is skipped and
the merged, score-sorted, limited results of the remaining codebases are
returned.  Moreover every returned item provably comes from a codebase
whose search succeeded. -/

theorem c9_search_failure_isolated (snapshot : SnapshotData)
    (env : String → Except String (List SemanticSearchResult))
    (resultLimit : Nat) (cb e : String) (h : env cb = Except.error e) :
    searchAllCodebases snapshot env resultLimit =
      searchAllCodebases snapshot
        (fun c => if c = cb then Except.ok [] else env c) resultLimit ∧
    ∀ item ∈ (searchAllCodebases snapshot env resultLimit).items,
      ∃ rs, env item.codebasePath = Except.ok rs ∧ item.result ∈ rs := by
  constructor
  · simp only [searchAllCodebases]
    rw [collectAllResults_replace (getIndexingCodebases snapshot) env cb e h]
  · intro item hitem
    simp only [searchAllCodebases] at hitem
    split at hitem
    · simp at hitem
    · split at hitem
      · simp at hitem
      · have h1 := List.mem_mergeSort.mp (List.mem_of_mem_take hitem)
        rw [collectAllResults] at h1
        obtain ⟨cb', hcb', hin⟩ := List.mem_flatMap.mp h1
        cases henv : env cb' with
        | error e' =>
          rw [henv] at hin
          simp at hin
        | ok rs =>
          rw [henv] at hin
          obtain ⟨r, hr, heq⟩ := List.mem_map.mp hin
          rw [← heq]
          exact ⟨rs, henv, hr⟩

theorem c9_search_failure_isolated_witness :
    searchAllCodebases demoSnapshot demoSearchEnv 5 =
      searchAllCodebases demoSnapshot
        (fun c => if c = "a" then Except.ok [] else demoSearchEnv c) 5 ∧
    ∀ item ∈ (searchAllCodebases demoSnapshot demoSearchEnv 5).items,
      ∃ rs, demoSearchEnv item.codebasePath = Except.ok rs ∧ item.result ∈ rs :=
  c9_search_failure_isolated demoSnapshot demoSearchEnv 5 "a" "down" (by decide)

/-! ## C10: a requested langchain splitter is acknowledged but not used -/

/-- C10.  A validated request with `splitter = 'langchain'` is acknowledged
as using the LANGCHAIN splitter and queued with that requested type, but
the background task always runs on the server's shared `Context` — whose
splitter is the AST splitter — regardless of the requested type. -/

theorem c10_langchain_request_runs_ast (env : IndexEnv) (args : IndexArgs)
    (st : McpState)
    (hs : args.splitter = some "langchain")
    (hE : env.pathExists = true) (hD : env.isDirectory = true)
    (hI : args.path ∉ getIndexingCodebases st.snapshot)
    (hX : args.force.getD false = true ∨ args.path ∉ getIndexedCodebases st.snapshot)
    (hL : env.collectionLimit = Except.ok true) :
    (handleIndexCodebase env args st).1.kind = RespKind.started ∧
    (handleIndexCodebase env args st).1.isError = false ∧
    (handleIndexCodebase env args st).1.ackSplitter = some "LANGCHAIN" ∧
    (handleIndexCodebase env args st).2.startedJobs =
      st.startedJobs ++ [(args.path, args.force.getD false, "langchain")] ∧
    ∀ (benv : BgEnv) (bst : McpState),
      (startBackgroundIndexing serverContext args.path (args.force.getD false)
        "langchain" benv bst).backgroundRuns =
      bst.backgroundRuns ++ [⟨args.path, "langchain", SplitterKind.ast⟩] := by
  have hx5 : ¬ (args.force.getD false = false ∧
      args.path ∈ getIndexedCodebases st.snapshot) := by
    rcases hX with h | h
    · rw [h]; simp
    · simp [h]
  have hmain : handleIndexCodebase env args st =
      (⟨RespKind.started, false, some (jsToUpperCase "langchain")⟩,
        let st1 := forceClearStage env args.path (args.force.getD false) st
        let st2 := { st1 with customExtensions :=
          st1.customExtensions ++ (args.customExtensions).getD [] }
        let st3 := { st2 with customIgnorePatterns :=
          st2.customIgnorePatterns ++ (args.ignorePatterns).getD [] }
        let st4 := { st3 with snapshot := setCodebaseIndexing st3.snapshot args.path 0 }
        let st5 := { st4 with persistedSnapshots :=
          st4.persistedSnapshots ++ [st4.snapshot] }
        let st6 := { st5 with trackedPaths := st5.trackedPaths ++ [args.path] }
        { st6 with startedJobs :=
          st6.startedJobs ++ [(args.path, args.force.getD false, "langchain")] }) := by
    simp only [handleIndexCodebase, hs, Option.getD_some]
    rw [if_neg (show ¬ ¬ ("langchain" = "ast" ∨ True) by simp)]
    rw [if_neg (show ¬ (env.pathExists = false) by simp [hE])]
    rw [if_neg (show ¬ (env.isDirectory = false) by simp [hD])]
    rw [if_neg hI, if_neg hx5, hL]
  refine ⟨by rw [hmain], by rw [hmain], ?_, ?_, ?_⟩
  · rw [hmain]
    show some (jsToUpperCase "langchain") = some "LANGCHAIN"
    decide
  · rw [hmain]
    show (forceClearStage env args.path (args.force.getD false) st).startedJobs ++
        [(args.path, args.force.getD false, "langchain")] =
      st.startedJobs ++ [(args.path, args.force.getD false, "langchain")]
    rw [(forceClearStage_fields env args.path (args.force.getD false) st).1]
  · intro benv bst
    cases hout : benv.outcome with
    | ok stats =>
      simp only [startBackgroundIndexing, hout]
      rw [applyProgressEvents_backgroundRuns]
      rfl
    | error msg =>
      simp only [startBackgroundIndexing, hout]
      rw [applyProgressEvents_backgroundRuns]
      rfl

theorem c10_langchain_request_runs_ast_witness :
    (handleIndexCodebase okEnv langchainArgs emptyState).1.kind =
      RespKind.started ∧
    (handleIndexCodebase okEnv langchainArgs emptyState).1.isError = false ∧
    (handleIndexCodebase okEnv langchainArgs emptyState).1.ackSplitter =
      some "LANGCHAIN" ∧
    (handleIndexCodebase okEnv langchainArgs emptyState).2.startedJobs =
      emptyState.startedJobs ++
        [(langchainArgs.path, langchainArgs.force.getD false, "langchain")] ∧
    ∀ (benv : BgEnv) (bst : McpState),
      (startBackgroundIndexing serverContext langchainArgs.path
        (langchainArgs.force.getD false) "langchain" benv bst).backgroundRuns =
      bst.backgroundRuns ++ [⟨langchainArgs.path, "langchain", SplitterKind.ast⟩] :=
  c10_langchain_request_runs_ast okEnv langchainArgs emptyState rfl (by decide)
    (by decide) (by decide) (by decide) (by decide)

/-! ## Monotonicity of traversal order -/

theorem wfT_row_le {t : STree} (h : wfT t = true) : t.sRow ≤ t.eRow := by
  cases t with
  | mk ty s e si ei cs =>
    simp only [wfT, Bool.and_eq_true, decide_eq_true_eq] at h
    exact h.1

mutual

theorem extractNode_mono (splittableTypes : List String) (code : List Char)
    (language : String) (filePath : Option String) (t : STree)
    (h : wfT t = true) :
    List.Chain' (· ≤ ·)
      ((extractNode splittableTypes code language filePath t).map (·.startLine)) ∧
    ∀ c ∈ extractNode splittableTypes code language filePath t,
      (t.sRow : Int) + 1 ≤ c.startLine ∧ c.startLine ≤ (t.eRow : Int) + 1 := by
  cases t with
  | mk ty s e si ei cs =>
    simp only [wfT, Bool.and_eq_true, decide_eq_true_eq] at h
    obtain ⟨hse, hwf⟩ := h
    have hf := extractForest_mono splittableTypes code language filePath s e cs hwf
    simp only [extractNode, STree.sRow, STree.eRow]
    split
    · constructor
      · rw [List.singleton_append, List.map_cons, List.chain'_cons']
        refine ⟨?_, hf.1⟩
        intro y hy
        obtain ⟨c, hc, hcy⟩ := List.mem_map.mp (List.mem_of_mem_head? hy)
        have hb := (hf.2 c hc).1
        rw [hcy] at hb
        exact hb
      · intro c hc
        rw [List.singleton_append, List.mem_cons] at hc
        rcases hc with hc | hc
        · subst hc
          constructor
          · exact le_refl _
          · simp only []
            omega
        · exact hf.2 c hc
    · rw [List.nil_append]
      exact hf
  termination_by sizeOf t

theorem extractForest_mono (splittableTypes : List String) (code : List Char)
    (language : String) (filePath : Option String) (lo hi : Nat) (f : SForest)
    (h : wfF lo hi f = true) :
    List.Chain' (· ≤ ·)
      ((extractForest splittableTypes code language filePath f).map (·.startLine)) ∧
    ∀ c ∈ extractForest splittableTypes code language filePath f,
      (lo : Int) + 1 ≤ c.startLine ∧ c.startLine ≤ (hi : Int) + 1 := by
  cases f with
  | nil => simp [extractForest]
  | cons t ts =>
    simp only [wfF, Bool.and_eq_true, decide_eq_true_eq] at h
    obtain ⟨⟨⟨hlo, hhi⟩, hwt⟩, hwf⟩ := h
    have hte : t.sRow ≤ t.eRow := wfT_row_le hwt
    have h1 := extractNode_mono splittableTypes code language filePath t hwt
    have h2 := extractForest_mono splittableTypes code language filePath t.eRow hi ts hwf
    simp only [extractForest]
    constructor
    · rw [List.map_append, List.chain'_append]
      refine ⟨h1.1, h2.1, ?_⟩
      intro x hx y hy
      obtain ⟨c, hc, hcx⟩ := List.mem_map.mp (List.mem_of_mem_getLast? hx)
      obtain ⟨d, hd, hdy⟩ := List.mem_map.mp (List.mem_of_mem_head? hy)
      have hxb := (h1.2 c hc).2
      have hyb := (h2.2 d hd).1
      rw [hcx] at hxb
      rw [hdy] at hyb
      omega
    · intro c hc
      rcases List.mem_append.mp hc with hc | hc
      · have hb := h1.2 c hc
        omega
      · have hb := h2.2 c hc
        omega
  termination_by sizeOf f

end

/-- Traversal emission order is monotone in start line for any well-formed
tree. -/

theorem extractChunks_mono (splittableTypes : List String) (code : List Char)
    (language : String) (filePath : Option String) (root : STree)
    (h : wfT root = true) :
    List.Chain' (· ≤ ·)
      ((extractChunks splittableTypes code language filePath root).map (·.startLine)) := by
  rw [extractChunks]
  split
  · simp
  · exact (extractNode_mono splittableTypes code language filePath root h).1

theorem slcLoop_startLine_chain (chunkSize : Nat) (base : Int)
    (language : String) (filePath : Option String) (lines : List (List Char)) :
    ∀ (i : Nat) (cur : List Char) (curStart : Int) (curCount : Nat),
    curStart ≤ base + i →
    List.Chain' (· ≤ ·)
      ((slcLoop chunkSize base language filePath lines i cur curStart curCount).map
        (·.startLine)) ∧
    ∀ c ∈ slcLoop chunkSize base language filePath lines i cur curStart curCount,
      curStart ≤ c.startLine := by
  induction lines with
  | nil =>
    intro i cur curStart curCount _
    simp only [slcLoop]
    split
    · constructor
      · simp
      · intro c hc
        rw [List.mem_singleton] at hc
        subst hc
        exact le_refl _
    · simp
  | cons l rest ih =>
    intro i cur curStart curCount hcs
    simp only [slcLoop]
    split
    · have ih1 := ih (i + 1) (lineWithNL rest.isEmpty l) (base + i) 1
        (by push_cast; omega)
      constructor
      · rw [List.map_cons, List.chain'_cons']
        refine ⟨?_, ih1.1⟩
        intro y hy
        obtain ⟨c, hc, hcy⟩ := List.mem_map.mp (List.mem_of_mem_head? hy)
        have hb := ih1.2 c hc
        rw [hcy] at hb
        exact le_trans hcs hb
      · intro c hc
        rw [List.mem_cons] at hc
        rcases hc with hc | hc
        · subst hc
          exact le_refl _
        · exact le_trans hcs (ih1.2 c hc)
    · exact ih (i + 1) _ curStart (curCount + 1) (by push_cast at hcs ⊢; omega)

/-- Each oversized chunk's own sub-chunks come out in non-decreasing start
line order. -/

theorem splitLargeChunk_mono (chunkSize : Nat) (chunk : CodeChunk) :
    List.Chain' (· ≤ ·)
      ((splitLargeChunk chunkSize chunk).map (·.startLine)) :=
  (slcLoop_startLine_chain chunkSize chunk.startLine chunk.language chunk.filePath
    (splitNL chunk.content) 0 [] chunk.startLine 0 (by simp)).1

/-! ## C8: monotone emission order -/

/-- C8.  The claim fails once oversized-chunk splitting is included: on a
well-formed tree whose parent and child chunks share the span (lines 1-3)
with `chunkSize = 6`, the parent chunk is split into sub-chunks starting on
lines 1, 2, 3, after which the child's sub-chunks start again at lines
1, 2, 3 — the emitted start lines are 1,2,3,1,2,3, and the third adjacent
pair decreases. -/

theorem c8_monotone_emission_counterexample :
    wfT demoTree = true ∧
    (splitStage 6 (extractChunks splittableNodeTypesJavascript demoCode
        "javascript" none demoTree)).map (·.startLine) = [1, 2, 3, 1, 2, 3] ∧
    ¬ List.Chain' (· ≤ ·)
      ((splitStage 6 (extractChunks splittableNodeTypesJavascript demoCode
        "javascript" none demoTree)).map (·.startLine)) := by
  refine ⟨by decide, by decide, ?_⟩
  intro hch
  rw [show (splitStage 6 (extractChunks splittableNodeTypesJavascript demoCode
      "javascript" none demoTree)).map (·.startLine) = [1, 2, 3, 1, 2, 3] from
    by decide, List.chain'_cons, List.chain'_cons, List.chain'_cons] at hch
  exact absurd hch.2.2.1 (by decide)

/-- C8 (amended).  Before splitting, the depth-first emission order of
`extractChunks` is monotonically non-decreasing in `startLine` for every
well-formed syntax tree, and `splitLargeChunk` emits each oversized chunk's
sub-chunks in non-decreasing order; but the concatenated post-splitting
sequence need not be monotone, because a split parent's later sub-chunks
can start after a nested child chunk that is emitted next. -/

theorem c8_monotone_emission_amended :
    (∀ (splittableTypes : List String) (code : List Char) (language : String)
      (filePath : Option String) (root : STree), wfT root = true →
      List.Chain' (· ≤ ·)
        ((extractChunks splittableTypes code language filePath root).map
          (·.startLine))) ∧
    (∀ (chunkSize : Nat) (chunk : CodeChunk),
      List.Chain' (· ≤ ·)
        ((splitLargeChunk chunkSize chunk).map (·.startLine))) :=
  ⟨fun types code language filePath root h =>
    extractChunks_mono types code language filePath root h,
   fun chunkSize chunk => splitLargeChunk_mono chunkSize chunk⟩

theorem c8_monotone_emission_witness :
    wfT demoTree = true ∧
    List.Chain' (· ≤ ·)
      ((extractChunks splittableNodeTypesJavascript demoCode "javascript" none
        demoTree).map (·.startLine)) ∧
    List.Chain' (· ≤ ·) ((splitLargeChunk 6 overlapDemoA).map (·.startLine)) :=
  ⟨by decide,
   c8_monotone_emission_amended.1 splittableNodeTypesJavascript demoCode
     "javascript" none demoTree (by decide),
   c8_monotone_emission_amended.2 6 overlapDemoA⟩

end ContextLocal
